import Mathlib

/-!
Verification of the batch conversion orchestrator of the composite-hkxtools
GUI (`src/main.rs`).  The development shallowly embeds the data model and the
core operations of the program:

* `RPath` models `std::path::PathBuf` as a root flag plus a list of normal
  components; `RPath.parent`, `RPath.startsWithP`, `RPath.join`,
  `RPath.fileStem`, `RPath.extension` and `RPath.stripPre` mirror the `Path`
  methods used by the program (`parent`, `starts_with`, `join`, `file_stem`,
  `extension`, `strip_prefix`).
* The enums `ConverterTool`, `ConversionMode`, `OutputFormat`,
  `InputFileExtension` and the app state are taken directly from the source.
* `get_output_path_static`, `HkxToolsApp.get_output_path` and
  `find_common_parent_dir` embed the output-path derivation.
* `build_invocation` embeds the argument-building phase of
  `TempConversionContext::run_conversion_tool` (everything up to the point
  where an external process would be spawned); `finishRun` embeds its
  post-exit classification.
* `start_conversion` embeds the precondition checks of
  `HkxToolsApp::start_conversion`, and `run_conversion_async` embeds the
  orchestration loop (task fan-out, cancellation checks, fan-in
  classification, terminal event) as a pure function over oracles for the
  one-shot cancellation signal and the per-task outcomes.
-/

/-- Model of `std::path::PathBuf`: a path is a root marker (`absolute`) plus
the list of its normal components.  `⟨true, []⟩` is the filesystem root,
`⟨false, []⟩` is the empty path. -/
structure RPath where
  absolute : Bool
  comps : List String
deriving DecidableEq, Repr

/-- `Path::parent`: strips the last component; `None` for the root and for
the empty path (the only paths without components in this model). -/
def RPath.parent (p : RPath) : Option RPath :=
  if p.comps.isEmpty then none else some ⟨p.absolute, p.comps.dropLast⟩

/-- `Path::starts_with`: component-wise prefix test.  An empty relative path
is a prefix of every path; otherwise the root markers must agree and the
component list of `q` must be a prefix of that of `p`. -/
def RPath.startsWithP (p q : RPath) : Prop :=
  (q.absolute = false ∧ q.comps = []) ∨ (p.absolute = q.absolute ∧ q.comps <+: p.comps)

instance (p q : RPath) : Decidable (p.startsWithP q) :=
  inferInstanceAs (Decidable (_ ∨ _))

/-- `Path::join`: an absolute argument replaces the receiver, a relative one
is appended. -/
def RPath.join (p q : RPath) : RPath :=
  if q.absolute then q else ⟨p.absolute, p.comps ++ q.comps⟩

/-- Index of the last `'.'` in a character list, if any. -/
def lastDotIdx : List Char → Option Nat
  | [] => none
  | c :: cs =>
    match lastDotIdx cs with
    | some i => some (i + 1)
    | none => if c = '.' then some 0 else none

/-- `Path::file_stem` on a file name: the part before the final dot, the
whole name when there is no dot or when the only dot is the leading one. -/
def stemOf (s : String) : String :=
  match lastDotIdx s.toList with
  | none => s
  | some 0 => s
  | some i => String.mk (s.toList.take i)

/-- `Path::extension` on a file name: the part after the final dot, `none`
when there is no dot or when the only dot is the leading one. -/
def extOf (s : String) : Option String :=
  match lastDotIdx s.toList with
  | none => none
  | some 0 => none
  | some i => some (String.mk (s.toList.drop (i + 1)))

/-- `Path::file_name`: the last component. -/
def RPath.fileName (p : RPath) : Option String := p.comps.getLast?

/-- `Path::file_stem` (`to_str` is the identity in this model). -/
def RPath.fileStem (p : RPath) : Option String := p.comps.getLast?.map stemOf

/-- `Path::extension`. -/
def RPath.extension (p : RPath) : Option String := p.comps.getLast?.bind extOf

/-- `Path::strip_prefix`: removes a component-wise prefix, yielding the
relative remainder; `none` models the `Err` case. -/
def RPath.stripPre (p base : RPath) : Option RPath :=
  if base.absolute then
    (if p.absolute ∧ base.comps <+: p.comps then
      some ⟨false, p.comps.drop base.comps.length⟩
    else none)
  else
    (if base.comps = [] then some ⟨false, p.comps⟩
    else if ¬p.absolute ∧ base.comps <+: p.comps then
      some ⟨false, p.comps.drop base.comps.length⟩
    else none)

/-- Debug rendering of a path, used only inside error message strings. -/
def RPath.render (p : RPath) : String :=
  (if p.absolute then "/" else "") ++ String.intercalate "/" p.comps

/-- `ConverterTool` from the source. -/
inductive ConverterTool
  | HkxCmd
  | HkxC
  | HkxConv
  | Hct
  | HavokBehaviorPostProcess
deriving DecidableEq, Repr

/-- `ConversionMode` from the source. -/
inductive ConversionMode
  | Regular
  | KfToHkx
  | HkxToKf
deriving DecidableEq, Repr

/-- `ConversionMode::requires_skeleton`. -/
def ConversionMode.requires_skeleton : ConversionMode → Bool
  | ConversionMode.KfToHkx => true
  | ConversionMode.HkxToKf => true
  | ConversionMode.Regular => false

/-- `OutputFormat` from the source. -/
inductive OutputFormat
  | Xml
  | SkyrimLE
  | SkyrimSE
deriving DecidableEq, Repr

/-- `OutputFormat::extension`. -/
def OutputFormat.extension : OutputFormat → String
  | OutputFormat.Xml => "xml"
  | OutputFormat.SkyrimLE => "hkx"
  | OutputFormat.SkyrimSE => "hkx"

/-- `InputFileExtension` from the source. -/
inductive InputFileExtension
  | All
  | Hkx
  | Xml
  | Kf
deriving DecidableEq, Repr

/-- The extension-selection `let` of `get_output_path_static` (and of the
identical block in `HkxToolsApp::get_output_path`): the custom extension when
present, otherwise the mode-derived default. -/
def selectedExtension (custom_extension : Option String) (conversion_mode : ConversionMode)
    (output_format : OutputFormat) : String :=
  match custom_extension with
  | some custom_ext => custom_ext
  | none =>
    match conversion_mode with
    | ConversionMode.Regular => output_format.extension
    | ConversionMode.KfToHkx => "hkx"
    | ConversionMode.HkxToKf => "kf"

/-- The output-name `format!` of the path derivation:
`"{file_name}.{ext}"`, or `"{file_name}_{suffix}.{ext}"` when the suffix is
non-empty. -/
def outputName (file_name output_suffix ext : String) : String :=
  if output_suffix = "" then file_name ++ "." ++ ext
  else file_name ++ "_" ++ output_suffix ++ "." ++ ext

/-- `HkxToolsApp::get_output_path_static`, the derivation used by
`run_conversion_async`: the output is placed directly under `output_folder`,
with no relative-directory component. -/
def get_output_path_static (input_path output_folder : RPath) (output_suffix : String)
    (output_format : OutputFormat) (custom_extension : Option String)
    (conversion_mode : ConversionMode) : Option RPath :=
  match input_path.fileStem with
  | none => none
  | some file_name =>
    some (output_folder.join
      ⟨false, [outputName file_name output_suffix
        (selectedExtension custom_extension conversion_mode output_format)]⟩)

/-- The `while !dir.starts_with(common) { common = common.parent()?; }` loop
of `find_common_parent_dir`, realised by structural recursion on the REVERSED
component list of `common` (taking `parent` strips the last component, i.e.
the head of the reversed list; the ascent is exhausted — the `?` returns
`None` — when the component list is empty). -/
def ascendAux (dir : RPath) (r : Bool) : List String → Option RPath
  | [] => if dir.startsWithP ⟨r, []⟩ then some ⟨r, []⟩ else none
  | x :: rest =>
    if dir.startsWithP ⟨r, (x :: rest).reverse⟩ then some ⟨r, (x :: rest).reverse⟩
    else ascendAux dir r rest

/-- The inner-loop body of `find_common_parent_dir` for one later directory:
ascend from `common` until it is a prefix of `dir` (`none` when the ascent is
exhausted). -/
def ascendUntil (common dir : RPath) : Option RPath :=
  ascendAux dir common.absolute common.comps.reverse

/-- `HkxToolsApp::find_common_parent_dir` over the input list: the common
ancestor of the parents of all input paths.  A `none` from the inner `?`
aborts the whole computation, modelled by folding with `Option.bind`. -/
def find_common_parent_dir (input_paths : List RPath) : Option RPath :=
  if input_paths.isEmpty then none
  else
    match input_paths.filterMap RPath.parent with
    | [] => none
    | first :: rest =>
      rest.foldl (fun acc dir => acc.bind fun common => ascendUntil common dir) (some first)

/-- The fields of `HkxToolsApp` used by the embedded methods (the remaining
fields are GUI widgets and the embedded tool paths). -/
structure AppState where
  input_paths : List RPath
  output_folder : Option RPath
  skeleton_file : Option RPath
  output_suffix : String
  output_format : OutputFormat
  custom_extension : Option String
  input_file_extension : InputFileExtension
  converter_tool : ConverterTool
  conversion_mode : ConversionMode
deriving DecidableEq, Repr

/-- `HkxToolsApp::get_output_path` (the instance method, not called by the
conversion pipeline): derives the output path WITH relative-directory
preservation — single input: the parent of the input is the base; several
inputs: the common parent directory is the base, and the parent of the input
relative to it (empty on `strip_prefix` failure) is re-rooted under the
output folder. -/
def HkxToolsApp.get_output_path (s : AppState) (input_path : RPath) : Option RPath :=
  match s.output_folder with
  | none => none
  | some output_base =>
    match input_path.fileStem with
    | none => none
    | some file_name =>
      let ext := selectedExtension s.custom_extension s.conversion_mode s.output_format
      let base_dir : RPath :=
        if s.input_paths.length = 1 then (input_path.parent).getD ⟨false, []⟩
        else (find_common_parent_dir s.input_paths).getD ⟨false, []⟩
      let relative_path : RPath :=
        (RPath.stripPre ((input_path.parent).getD ⟨false, []⟩) base_dir).getD ⟨false, []⟩
      some ((output_base.join relative_path).join
        ⟨false, [outputName file_name s.output_suffix ext]⟩)

/-- Tool label used in error messages (`tool_name` in
`run_conversion_tool`). -/
def toolName : ConverterTool → String
  | ConverterTool.HkxCmd => "hkxcmd"
  | ConverterTool.HkxC => "hkxc"
  | ConverterTool.HkxConv => "hkxconv"
  | ConverterTool.Hct => "hctStandAloneFilterManager"
  | ConverterTool.HavokBehaviorPostProcess => "HavokBehaviorPostProcess"

/-- A process argument: a literal string or a path (paths are passed to
`Command::arg` unrendered). -/
inductive Arg
  | str (s : String)
  | path (p : RPath)
deriving DecidableEq, Repr

/-- Paths of the embedded tool executables and the `.hko` filter file, as
held by `TempConversionContext`. -/
structure ToolPaths where
  hkxcmd_path : RPath
  hkxc_path : RPath
  hkxconv_path : RPath
  sse_to_le_hko_path : RPath
  havok_behavior_post_process_path : RPath
deriving DecidableEq, Repr

/-- The process invocation that `run_conversion_tool` is about to spawn,
classified by the three execution shapes in the source:
`direct` (spawn the executable with the argument list),
`hctStaged` (HCT: private temp working directory holding a copy of the
`.hko` file, args `[input, "-s", hko_file_name]`, then relocate the
fixed-name output `filename.hkx` to the destination), and
`inPlace` (HavokBehaviorPostProcess: first copy `copySrc` to `copyDst`,
then run with the destination as both nominal input and output). -/
inductive BuiltCommand
  | direct (exe : Arg) (args : List Arg)
  | hctStaged (exe : Arg) (input : RPath) (hkoFileName : String)
  | inPlace (exe : Arg) (args : List Arg) (copySrc copyDst : RPath)
deriving DecidableEq, Repr

/-- `-v:` value for hkxcmd. -/
def hkxcmdFormat : OutputFormat → String
  | OutputFormat.Xml => "XML"
  | OutputFormat.SkyrimLE => "WIN32"
  | OutputFormat.SkyrimSE => "AMD64"

/-- `--format` value for hkxc. -/
def hkxcFormat : OutputFormat → String
  | OutputFormat.Xml => "xml"
  | OutputFormat.SkyrimLE => "win32"
  | OutputFormat.SkyrimSE => "amd64"

/-- `-v` value for hkxconv; note that both HKX formats map to `"hkx"`. -/
def hkxconvFormat : OutputFormat → String
  | OutputFormat.Xml => "xml"
  | OutputFormat.SkyrimLE => "hkx"
  | OutputFormat.SkyrimSE => "hkx"

/-- Path absolutization applied to every path before it is handed to an
external tool (`if p.is_absolute() { p } else { current_dir().join(p) }`). -/
def absolutize (cwd p : RPath) : RPath :=
  if p.absolute then p else cwd.join p

/-- The argument-building phase of `TempConversionContext::run_conversion_tool`
(source lines 186–454), i.e. everything that happens before a process is
spawned: the choice of executable, path absolutization, the mode command
argument, and the `(conversion_mode, converter_tool)` match.  An
`Except.error` models the `return Err(...)` branches, which occur before any
process is spawned; an `Except.ok` is the invocation the function goes on to
execute.  Filesystem work of the HCT/HavokBehaviorPostProcess branches is
summarised in the `BuiltCommand` constructors. -/
def build_invocation (tp : ToolPaths) (cwd : RPath) (converter_tool : ConverterTool)
    (conversion_mode : ConversionMode) (output_format : OutputFormat)
    (input output : RPath) (skeleton_file : Option RPath) :
    Except String BuiltCommand :=
  let exe : Arg :=
    match converter_tool with
    | ConverterTool.HkxCmd => Arg.path tp.hkxcmd_path
    | ConverterTool.HkxC => Arg.path tp.hkxc_path
    | ConverterTool.HkxConv => Arg.path tp.hkxconv_path
    | ConverterTool.Hct => Arg.str "hctStandAloneFilterManager.exe"
    | ConverterTool.HavokBehaviorPostProcess => Arg.path tp.havok_behavior_post_process_path
  let input_absolute := absolutize cwd input
  let output_absolute := absolutize cwd output
  let skeleton_absolute := skeleton_file.map (absolutize cwd)
  let args0 : List Arg :=
    match conversion_mode with
    | ConversionMode.Regular =>
      if converter_tool ≠ ConverterTool.Hct ∧
          converter_tool ≠ ConverterTool.HavokBehaviorPostProcess then
        [Arg.str "convert"]
      else []
    | ConversionMode.KfToHkx =>
      if converter_tool ≠ ConverterTool.Hct then [Arg.str "ConvertKF"] else []
    | ConversionMode.HkxToKf =>
      if converter_tool ≠ ConverterTool.Hct then [Arg.str "exportkf"] else []
  match conversion_mode, converter_tool with
  | ConversionMode.Regular, ConverterTool.HkxCmd =>
    Except.ok (BuiltCommand.direct exe (args0 ++
      [Arg.str "-i", Arg.path input_absolute, Arg.str "-o", Arg.path output_absolute,
        Arg.str ("-v:" ++ hkxcmdFormat output_format)]))
  | ConversionMode.Regular, ConverterTool.HkxC =>
    Except.ok (BuiltCommand.direct exe (args0 ++
      [Arg.str "--input", Arg.path input_absolute, Arg.str "--output",
        Arg.path output_absolute, Arg.str "--format", Arg.str (hkxcFormat output_format)]))
  | ConversionMode.KfToHkx, ConverterTool.HkxCmd =>
    Except.ok (BuiltCommand.direct exe (args0 ++
      (match skeleton_absolute with
        | some skeleton => [Arg.path skeleton]
        | none => []) ++
      [Arg.path input_absolute, Arg.path output_absolute,
        Arg.str ("-v:" ++ hkxcmdFormat output_format)]))
  | ConversionMode.HkxToKf, ConverterTool.HkxCmd =>
    Except.ok (BuiltCommand.direct exe (args0 ++
      (match skeleton_absolute with
        | some skeleton => [Arg.path skeleton]
        | none => []) ++
      [Arg.path input_absolute, Arg.path output_absolute]))
  | ConversionMode.KfToHkx, ConverterTool.HkxC =>
    Except.error "hkxc does not support KF conversion"
  | ConversionMode.HkxToKf, ConverterTool.HkxC =>
    Except.error "hkxc does not support KF conversion"
  | ConversionMode.Regular, ConverterTool.HkxConv =>
    Except.ok (BuiltCommand.direct exe (args0 ++
      [Arg.str "convert", Arg.path input_absolute, Arg.path output_absolute,
        Arg.str "-v", Arg.str (hkxconvFormat output_format)]))
  | ConversionMode.KfToHkx, ConverterTool.HkxConv =>
    Except.error "hkxconv does not support KF conversion"
  | ConversionMode.HkxToKf, ConverterTool.HkxConv =>
    Except.error "hkxconv does not support KF conversion"
  | ConversionMode.Regular, ConverterTool.Hct =>
    Except.ok (BuiltCommand.hctStaged exe input_absolute
      ((tp.sse_to_le_hko_path.fileName).getD ""))
  | ConversionMode.KfToHkx, ConverterTool.Hct =>
    Except.error "HCT does not support KF conversion"
  | ConversionMode.HkxToKf, ConverterTool.Hct =>
    Except.error "HCT does not support KF conversion"
  | ConversionMode.Regular, ConverterTool.HavokBehaviorPostProcess =>
    if input_absolute.extension ≠ some "hkx" then
      Except.error "HavokBehaviorPostProcess requires an HKX input file."
    else if input_absolute = output_absolute then
      Except.error ("Input and output paths are the same: " ++ input_absolute.render)
    else
      Except.ok (BuiltCommand.inPlace exe (args0 ++
        [Arg.str "--platformAmd64", Arg.path output_absolute, Arg.path output_absolute])
        input_absolute output_absolute)
  | ConversionMode.KfToHkx, ConverterTool.HavokBehaviorPostProcess =>
    Except.error "HavokBehaviorPostProcess does not support KF conversion"
  | ConversionMode.HkxToKf, ConverterTool.HavokBehaviorPostProcess =>
    Except.error "HavokBehaviorPostProcess does not support KF conversion"

/-- The mode-capability matrix as declared by the UI (`is_enabled` in
`render_main_ui`): which `(mode, tool)` pairs are selectable. -/
def modeEnabled (conversion_mode : ConversionMode) (converter_tool : ConverterTool) : Bool :=
  match conversion_mode, converter_tool with
  | ConversionMode.KfToHkx, ConverterTool.HkxC => false
  | ConversionMode.HkxToKf, ConverterTool.HkxC => false
  | ConversionMode.KfToHkx, ConverterTool.HkxConv => false
  | ConversionMode.HkxToKf, ConverterTool.HkxConv => false
  | ConversionMode.KfToHkx, ConverterTool.Hct => false
  | ConversionMode.HkxToKf, ConverterTool.Hct => false
  | ConversionMode.KfToHkx, ConverterTool.HavokBehaviorPostProcess => false
  | ConversionMode.HkxToKf, ConverterTool.HavokBehaviorPostProcess => false
  | _, _ => true

/-- The format-capability set as declared by the UI (`available_formats` in
`render_output_format`). -/
def supportedFormats : ConverterTool → List OutputFormat
  | ConverterTool.HkxCmd => [OutputFormat.Xml, OutputFormat.SkyrimLE, OutputFormat.SkyrimSE]
  | ConverterTool.HkxC => [OutputFormat.Xml, OutputFormat.SkyrimLE, OutputFormat.SkyrimSE]
  | ConverterTool.HkxConv => [OutputFormat.Xml, OutputFormat.SkyrimSE]
  | ConverterTool.Hct => [OutputFormat.SkyrimLE]
  | ConverterTool.HavokBehaviorPostProcess => [OutputFormat.SkyrimSE]

/-- Captured output of the external process (`std::process::Output`). -/
structure ProcessOutput where
  success : Bool
  exitCode : Option Int
  stdout : String
  stderr : String
deriving DecidableEq, Repr

/-- Rust `{:?}` rendering of `ExitStatus::code()`. -/
def exitCodeRepr : Option Int → String
  | some c => "Some(" ++ toString c ++ ")"
  | none => "None"

/-- The post-exit tail of `run_conversion_tool` (source lines 464–496): a
non-success exit status is an error; for HavokBehaviorPostProcess a
successful exit is followed by the advisory file-size comparison, which only
chooses between a WARNING and a SUCCESS log line and never changes the `Ok`
result.  Returns the emitted log lines paired with the result. -/
def finishRun (converter_tool : ConverterTool) (pout : ProcessOutput)
    (output_size_after input_size : Nat) : List String × Except String Unit :=
  if pout.success = false then
    ([], Except.error (toolName converter_tool ++ " failed with exit code " ++
      exitCodeRepr pout.exitCode ++ ": stdout: " ++ pout.stdout ++
      " stderr: " ++ pout.stderr))
  else if converter_tool = ConverterTool.HavokBehaviorPostProcess then
    if output_size_after = input_size then
      (["WARNING: Output file size is the same as input file size - conversion may not have worked"],
        Except.ok ())
    else
      (["SUCCESS: File size changed, conversion appears to have worked"], Except.ok ())
  else ([], Except.ok ())

/-- The result of `HkxToolsApp::start_conversion`: either the method returned
early with `conversion_status = Error { message }` — before the progress
channel, the cancellation channel, or any task is created and before any
filesystem access — or it passed validation and spawned the batch with
`conversion_status = Running { total }`. -/
inductive StartResult
  | errorStatus (message : String)
  | startedStatus (total : Nat)
deriving DecidableEq, Repr

/-- The validation phase of `HkxToolsApp::start_conversion` (source lines
895–926): the three precondition checks, in source order. -/
def start_conversion (s : AppState) : StartResult :=
  if s.input_paths.isEmpty then StartResult.errorStatus "No input files selected"
  else if s.output_folder.isNone then StartResult.errorStatus "No output folder selected"
  else if s.conversion_mode.requires_skeleton && s.skeleton_file.isNone then
    StartResult.errorStatus "Skeleton file is required for animation conversion"
  else StartResult.startedStatus s.input_paths.length

/-- The extension-filter test shared (duplicated verbatim in the source) by
`add_file`, `add_files_non_recursive` and `add_files_recursive`. -/
def fileMatchesFilter (filter : InputFileExtension) (converter_tool : ConverterTool)
    (p : RPath) : Bool :=
  match filter with
  | InputFileExtension.All =>
    match converter_tool with
    | ConverterTool.HkxCmd =>
      (p.extension).any fun ext => ext == "hkx" || ext == "xml" || ext == "kf"
    | ConverterTool.HkxC =>
      (p.extension).any fun ext => ext == "hkx" || ext == "xml"
    | ConverterTool.HkxConv =>
      (p.extension).any fun ext => ext == "hkx" || ext == "xml"
    | ConverterTool.Hct =>
      (p.extension).any fun ext => ext == "hkx"
    | ConverterTool.HavokBehaviorPostProcess =>
      (p.extension).any fun ext => ext == "hkx"
  | InputFileExtension.Hkx => (p.extension).any fun ext => ext == "hkx"
  | InputFileExtension.Xml => (p.extension).any fun ext => ext == "xml"
  | InputFileExtension.Kf => (p.extension).any fun ext => ext == "kf"

/-- `HkxToolsApp::add_file`: adds a single path if it is a file, matches the
current filter, and is not already present (membership by full path
equality); returns whether it was added.  `isFile` is the filesystem
oracle for `Path::is_file`. -/
def add_file (s : AppState) (isFile : RPath → Bool) (file_path : RPath) :
    AppState × Bool :=
  if isFile file_path then
    (if fileMatchesFilter s.input_file_extension s.converter_tool file_path ∧
        file_path ∉ s.input_paths then
      ({ s with input_paths := s.input_paths ++ [file_path] }, true)
    else (s, false))
  else (s, false)

/-- One iteration of the entry loops of `add_files_non_recursive` and
`add_files_recursive` (the bodies are identical in the source): push the
entry if it is a file, matches the filter and is not already present. -/
def addFolderStep (isFile : RPath → Bool) (s : AppState) (path : RPath) : AppState :=
  if isFile path then
    (if fileMatchesFilter s.input_file_extension s.converter_tool path ∧
        path ∉ s.input_paths then
      { s with input_paths := s.input_paths ++ [path] }
    else s)
  else s

/-- `HkxToolsApp::add_files_non_recursive` over the directory listing
`entries` (the `fs::read_dir` oracle). -/
def add_files_non_recursive (s : AppState) (isFile : RPath → Bool)
    (entries : List RPath) : AppState :=
  entries.foldl (addFolderStep isFile) s

/-- `HkxToolsApp::add_files_recursive` over the recursive walk `entries`
(the `walkdir::WalkDir` oracle). -/
def add_files_recursive (s : AppState) (isFile : RPath → Bool)
    (entries : List RPath) : AppState :=
  entries.foldl (addFolderStep isFile) s

/-- The progress states sent through the channel (`ConversionStatus`). -/
inductive PStatus
  | idle
  | running (current_file : String) (progress : Nat) (total : Nat)
  | completed (message : String)
  | error (message : String)
deriving DecidableEq, Repr

/-- `ConversionProgress` messages sent through the unbounded channel. -/
structure ConversionProgress where
  current_file : String
  file_index : Nat
  total_files : Nat
  status : PStatus
deriving DecidableEq, Repr

/-- The cancellation message sent by `run_conversion_async` when the
one-shot cancel signal is observed (identical shape at both check sites). -/
def cancelProgress (file_index total_files : Nat) : ConversionProgress :=
  ⟨"Cancelled", file_index, total_files,
    PStatus.error "Conversion cancelled by user"⟩

/-- The terminal completion message of `run_conversion_async`. -/
def completedProgress (successful_conversions total_files : Nat) : ConversionProgress :=
  ⟨"Completed", successful_conversions, total_files,
    PStatus.completed ("Successfully converted " ++ toString successful_conversions ++
      " of " ++ toString total_files ++ " files")⟩

/-- Outcome of one spawned per-file conversion task, as seen by the fan-in
loop of `run_conversion_async`: `success` is `Ok(Ok(()))` (conversion
succeeded and the output file exists), `innerError` is `Ok(Err(e))` (the
task failed and already sent its own per-file error event), `joinError` is
`Err(e)` from `join_all` (the task itself failed to join). -/
inductive TaskOutcome
  | success
  | innerError (message : String)
  | joinError (message : String)
deriving DecidableEq, Repr

/-- How the spawning loop of `run_conversion_async` ended. -/
inductive LoopExit
  | cancelled
  | derivationFailed (message : String)
  | finished
deriving DecidableEq, Repr

/-- `true` when the `cancel_rx.try_recv()` at global call number `k` observes
the one-shot signal.  `delivery = some d` means the signal becomes visible
from the `d`-th `try_recv` call on (the loops return at the first hit, so the
one-shot value is consumed at most once); `none` means cancellation is never
signalled. -/
def tryRecvOk (delivery : Option Nat) (k : Nat) : Bool :=
  match delivery with
  | none => false
  | some d => decide (d ≤ k)

/-- The configuration captured by value at batch start and passed to
`run_conversion_async`. -/
structure BatchConfig where
  output_folder : RPath
  output_suffix : String
  output_format : OutputFormat
  custom_extension : Option String
  conversion_mode : ConversionMode
deriving DecidableEq, Repr

/-- Output-path derivation as called by `run_conversion_async`. -/
def deriveOutput (cfg : BatchConfig) (input_path : RPath) : Option RPath :=
  get_output_path_static input_path cfg.output_folder cfg.output_suffix
    cfg.output_format cfg.custom_extension cfg.conversion_mode

/-- The spawning loop of `run_conversion_async` (source lines 995–1100).
Per file, in source order: check the cancellation signal (on a hit, send the
cancellation event and stop); derive the output path (`None` aborts the whole
function with the `context` error `"Failed to determine output path"`);
create the output parent directory (`fs::create_dir_all`, recorded in
`dirs`, assumed to succeed); spawn the task (recorded in `sp`; the events
of the task itself travel concurrently and are not part of this trace).
`i` is the running index, `total` the batch size. -/
def spawnLoop (cfg : BatchConfig) (delivery : Option Nat) (total : Nat) :
    List RPath → Nat → List Nat → List (Nat × RPath) → List ConversionProgress →
    List Nat × List (Nat × RPath) × List ConversionProgress × LoopExit
  | [], _, sp, dirs, evs => (sp, dirs, evs, LoopExit.finished)
  | input_path :: rest, i, sp, dirs, evs =>
    if tryRecvOk delivery i then
      (sp, dirs, evs ++ [cancelProgress i total], LoopExit.cancelled)
    else
      match deriveOutput cfg input_path with
      | none => (sp, dirs, evs, LoopExit.derivationFailed "Failed to determine output path")
      | some output_path =>
        spawnLoop cfg delivery total rest (i + 1) (sp ++ [i])
          (match output_path.parent with
            | some parent => dirs ++ [(i, parent)]
            | none => dirs)
          evs

/-- The fan-in loop of `run_conversion_async` (source lines 1103–1132):
iterate over the joined task results; per result check the cancellation
signal (on a hit, send the cancellation event — with the current success
count as `file_index` — and return `Ok`); a successful result increments the
count, a failed one returns `Err` immediately.  When the loop completes, the
terminal completion event is sent.  `k` is the global `try_recv` call
counter. -/
def resultLoop (delivery : Option Nat) (total : Nat) :
    List TaskOutcome → Nat → Nat → List ConversionProgress →
    List ConversionProgress × Except String Unit
  | [], successful_conversions, _, evs =>
    (evs ++ [completedProgress successful_conversions total], Except.ok ())
  | outcome :: rest, successful_conversions, k, evs =>
    if tryRecvOk delivery k then
      (evs ++ [cancelProgress successful_conversions total], Except.ok ())
    else
      match outcome with
      | TaskOutcome.success =>
        resultLoop delivery total rest (successful_conversions + 1) (k + 1) evs
      | TaskOutcome.innerError msg => (evs, Except.error msg)
      | TaskOutcome.joinError msg => (evs, Except.error ("Task failed: " ++ msg))

/-- Trace of one execution of `run_conversion_async`: the indices of the
spawned tasks, the `(index, directory)` pairs passed to
`fs::create_dir_all`, the events sent by the orchestrator itself (the two
cancellation sites and the terminal completion event; per-task events are
concurrent and not traced), and the return value of the function. -/
structure BatchTrace where
  spawned : List Nat
  dirsCreated : List (Nat × RPath)
  orchestratorEvents : List ConversionProgress
  result : Except String Unit
deriving Repr

/-- `HkxToolsApp::run_conversion_async` (source lines 968–1145) as a pure
function over the cancellation-delivery oracle and the per-task outcome
oracle: run the spawning loop, then — only when it finished — `join_all`
and the fan-in classification.  The `d`-th `try_recv` call is the `d`-th
check performed (spawn-loop checks first, then fan-in checks). -/
def run_conversion_async (input_paths : List RPath) (cfg : BatchConfig)
    (delivery : Option Nat) (outcomes : Nat → TaskOutcome) : BatchTrace :=
  let total := input_paths.length
  let res := spawnLoop cfg delivery total input_paths 0 [] [] []
  match res.2.2.2 with
  | LoopExit.cancelled => ⟨res.1, res.2.1, res.2.2.1, Except.ok ()⟩
  | LoopExit.derivationFailed msg => ⟨res.1, res.2.1, res.2.2.1, Except.error msg⟩
  | LoopExit.finished =>
    let r := resultLoop delivery total (res.1.map outcomes) 0 total res.2.2.1
    ⟨res.1, res.2.1, r.1, r.2⟩

instance : DecidableEq (Except String BuiltCommand) := fun a b =>
  match a, b with
  | Except.ok x, Except.ok y =>
    if h : x = y then isTrue (by rw [h]) else isFalse (by intro hc; cases hc; exact h rfl)
  | Except.error x, Except.error y =>
    if h : x = y then isTrue (by rw [h]) else isFalse (by intro hc; cases hc; exact h rfl)
  | Except.ok _, Except.error _ => isFalse (by intro hc; cases hc)
  | Except.error _, Except.ok _ => isFalse (by intro hc; cases hc)

instance : DecidableEq (Except String Unit) := fun a b =>
  match a, b with
  | Except.ok x, Except.ok y =>
    if h : x = y then isTrue (by rw [h]) else isFalse (by intro hc; cases hc; exact h rfl)
  | Except.error x, Except.error y =>
    if h : x = y then isTrue (by rw [h]) else isFalse (by intro hc; cases hc; exact h rfl)
  | Except.ok _, Except.error _ => isFalse (by intro hc; cases hc)
  | Except.error _, Except.ok _ => isFalse (by intro hc; cases hc)

/-- C5: starting a batch with an empty file list, without an output folder,
or in a skeleton-requiring mode (`KfToHkx` and `HkxToKf` are exactly the
skeleton-requiring modes) without a skeleton file makes `start_conversion`
return the corresponding single error status; the `errorStatus` return is
taken before the progress channel, the cancel channel or any conversion task
is created and before any filesystem work. -/
theorem start_conversion_precondition_errors (s : AppState) :
    (ConversionMode.requires_skeleton ConversionMode.KfToHkx = true ∧
      ConversionMode.requires_skeleton ConversionMode.HkxToKf = true ∧
      ConversionMode.requires_skeleton ConversionMode.Regular = false) ∧
    (s.input_paths = [] →
      start_conversion s = StartResult.errorStatus "No input files selected") ∧
    (s.input_paths ≠ [] → s.output_folder = none →
      start_conversion s = StartResult.errorStatus "No output folder selected") ∧
    (s.input_paths ≠ [] → s.output_folder ≠ none →
      s.conversion_mode.requires_skeleton = true → s.skeleton_file = none →
      start_conversion s =
        StartResult.errorStatus "Skeleton file is required for animation conversion") := by
  refine ⟨⟨rfl, rfl, rfl⟩, ?_, ?_, ?_⟩
  · intro h
    simp [start_conversion, h]
  · intro h1 h2
    simp [start_conversion, h1, h2]
  · intro h1 h2 h3 h4
    simp [start_conversion, h1, h2, h3, h4]

/-- Witness for C5 at concrete states: each precondition error fires. -/
theorem start_conversion_precondition_errors_witness :
    start_conversion ⟨[], none, none, "", OutputFormat.Xml, none, InputFileExtension.All,
        ConverterTool.HkxCmd, ConversionMode.Regular⟩ =
      StartResult.errorStatus "No input files selected" ∧
    start_conversion ⟨[⟨true, ["a", "f.hkx"]⟩], none, none, "", OutputFormat.Xml, none,
        InputFileExtension.All, ConverterTool.HkxCmd, ConversionMode.Regular⟩ =
      StartResult.errorStatus "No output folder selected" ∧
    start_conversion ⟨[⟨true, ["a", "f.kf"]⟩], some ⟨true, ["out"]⟩, none, "",
        OutputFormat.Xml, none, InputFileExtension.All, ConverterTool.HkxCmd,
        ConversionMode.KfToHkx⟩ =
      StartResult.errorStatus "Skeleton file is required for animation conversion" := by
  refine ⟨?_, ?_, ?_⟩
  · exact (start_conversion_precondition_errors _).2.1 rfl
  · exact (start_conversion_precondition_errors _).2.2.1 (by decide) rfl
  · exact (start_conversion_precondition_errors _).2.2.2 (by decide) (by decide) rfl rfl

/-- C7: the derived output extension is the custom extension whenever one is
set, regardless of mode and format; otherwise it is the mode-derived default
(`KfToHkx` → `"hkx"`, `HkxToKf` → `"kf"`, `Regular` → the canonical
extension of the format), and every path produced by `get_output_path_static`
carries a file name built from the stem of the input, the suffix and that selected
extension. -/
theorem derived_extension_selection (input_path output_folder : RPath)
    (output_suffix : String) (output_format : OutputFormat)
    (custom_extension : Option String) (conversion_mode : ConversionMode) :
    (∀ c, custom_extension = some c →
      selectedExtension custom_extension conversion_mode output_format = c) ∧
    (custom_extension = none → conversion_mode = ConversionMode.KfToHkx →
      selectedExtension custom_extension conversion_mode output_format = "hkx") ∧
    (custom_extension = none → conversion_mode = ConversionMode.HkxToKf →
      selectedExtension custom_extension conversion_mode output_format = "kf") ∧
    (custom_extension = none → conversion_mode = ConversionMode.Regular →
      selectedExtension custom_extension conversion_mode output_format =
        output_format.extension) ∧
    (∀ p, get_output_path_static input_path output_folder output_suffix output_format
        custom_extension conversion_mode = some p →
      ∃ file_name, input_path.fileStem = some file_name ∧
        p = output_folder.join ⟨false, [outputName file_name output_suffix
          (selectedExtension custom_extension conversion_mode output_format)]⟩) := by
  refine ⟨?_, ?_, ?_, ?_, ?_⟩
  · intro c hc; rw [hc]; rfl
  · intro hc hm; rw [hc, hm]; rfl
  · intro hc hm; rw [hc, hm]; rfl
  · intro hc hm; rw [hc, hm]; rfl
  · intro p hp
    unfold get_output_path_static at hp
    cases hstem : input_path.fileStem with
    | none => rw [hstem] at hp; cases hp
    | some file_name =>
      rw [hstem] at hp
      exact ⟨file_name, rfl, (Option.some_injective _ hp).symm⟩

/-- Witness for C7: custom extension `"anim"` wins over mode and format. -/
theorem derived_extension_selection_witness :
    selectedExtension (some "anim") ConversionMode.KfToHkx OutputFormat.Xml = "anim" ∧
    (∃ file_name, RPath.fileStem ⟨true, ["a", "f.kf"]⟩ = some file_name ∧
      (⟨true, ["out", "f.anim"]⟩ : RPath) = RPath.join ⟨true, ["out"]⟩
        ⟨false, [outputName file_name ""
          (selectedExtension (some "anim") ConversionMode.KfToHkx OutputFormat.Xml)]⟩) := by
  have h := derived_extension_selection ⟨true, ["a", "f.kf"]⟩ ⟨true, ["out"]⟩ ""
    OutputFormat.Xml (some "anim") ConversionMode.KfToHkx
  exact ⟨h.1 "anim" rfl, h.2.2.2.2 ⟨true, ["out", "f.anim"]⟩ (by decide)⟩

/-- C8: for the in-place tool HavokBehaviorPostProcess, after a successful
process exit the result of `finishRun` is `Ok` no matter how the post-run
size compares to the pre-run size; an unchanged size only selects the WARNING
log line, never a failure. -/
theorem hbpp_size_check_advisory (pout : ProcessOutput) (output_size_after input_size : Nat)
    (h : pout.success = true) :
    (finishRun ConverterTool.HavokBehaviorPostProcess pout output_size_after
      input_size).2 = Except.ok () ∧
    (output_size_after = input_size →
      finishRun ConverterTool.HavokBehaviorPostProcess pout output_size_after input_size =
        (["WARNING: Output file size is the same as input file size - conversion may not have worked"],
          Except.ok ())) := by
  constructor
  · unfold finishRun
    rw [h]
    by_cases hs : output_size_after = input_size <;> simp [hs]
  · intro hs
    unfold finishRun
    rw [h, hs]
    simp

/-- Witness for C8: a successful exit with identical sizes still yields
`Ok`, with the warning line. -/
theorem hbpp_size_check_advisory_witness :
    finishRun ConverterTool.HavokBehaviorPostProcess ⟨true, some 0, "", ""⟩ 42 42 =
      (["WARNING: Output file size is the same as input file size - conversion may not have worked"],
        Except.ok ()) :=
  (hbpp_size_check_advisory ⟨true, some 0, "", ""⟩ 42 42 rfl).2 rfl

/-- Appending a fresh element keeps a list duplicate-free. -/
theorem nodup_push {α : Type} {l : List α} {a : α} (h : l.Nodup) (ha : a ∉ l) :
    (l ++ [a]).Nodup := by
  rw [List.nodup_append]
  refine ⟨h, List.nodup_singleton a, ?_⟩
  intro b hb hb'
  rw [List.mem_singleton] at hb'
  exact ha (hb' ▸ hb)

/-- One folder-scan step keeps the list duplicate-free and only appends. -/
theorem addFolderStep_invariant (isFile : RPath → Bool) (s : AppState) (path : RPath)
    (h : s.input_paths.Nodup) :
    (addFolderStep isFile s path).input_paths.Nodup ∧
    s.input_paths <+: (addFolderStep isFile s path).input_paths := by
  unfold addFolderStep
  by_cases hf : isFile path
  · simp only [hf, if_true]
    by_cases hm : fileMatchesFilter s.input_file_extension s.converter_tool path ∧
        path ∉ s.input_paths
    · simp only [hm, if_true]
      exact ⟨nodup_push h hm.2, List.prefix_append _ _⟩
    · simp only [hm, if_false]
      exact ⟨h, List.prefix_rfl⟩
  · simp only [hf, if_false]
    exact ⟨h, List.prefix_rfl⟩

/-- The folder-scan fold keeps the list duplicate-free and only appends. -/
theorem foldAdd_invariant (isFile : RPath → Bool) :
    ∀ (entries : List RPath) (s : AppState), s.input_paths.Nodup →
      (entries.foldl (addFolderStep isFile) s).input_paths.Nodup ∧
      s.input_paths <+: (entries.foldl (addFolderStep isFile) s).input_paths := by
  intro entries
  induction entries with
  | nil => exact fun s h => ⟨h, List.prefix_rfl⟩
  | cons e rest ih =>
    intro s h
    have hstep := addFolderStep_invariant isFile s e h
    have hrest := ih (addFolderStep isFile s e) hstep.1
    exact ⟨hrest.1, hstep.2.trans hrest.2⟩

/-- C9: every file-adding operation (`add_file`, `add_files_non_recursive`,
`add_files_recursive`) tests membership by full path equality before pushing,
so a duplicate-free input list stays duplicate-free and the existing list is
a prefix of the new one — the same path never appears twice and insertion
order of distinct paths is preserved. -/
theorem input_list_nodup_invariant (s : AppState) (isFile : RPath → Bool)
    (file_path : RPath) (entries entries2 : List RPath)
    (h : s.input_paths.Nodup) :
    ((add_file s isFile file_path).1.input_paths.Nodup ∧
      s.input_paths <+: (add_file s isFile file_path).1.input_paths) ∧
    ((add_files_non_recursive s isFile entries).input_paths.Nodup ∧
      s.input_paths <+: (add_files_non_recursive s isFile entries).input_paths) ∧
    ((add_files_recursive s isFile entries2).input_paths.Nodup ∧
      s.input_paths <+: (add_files_recursive s isFile entries2).input_paths) := by
  refine ⟨?_, foldAdd_invariant isFile entries s h, foldAdd_invariant isFile entries2 s h⟩
  unfold add_file
  by_cases hf : isFile file_path
  · simp only [hf, if_true]
    by_cases hm : fileMatchesFilter s.input_file_extension s.converter_tool file_path ∧
        file_path ∉ s.input_paths
    · simp only [hm, if_true]
      exact ⟨nodup_push h hm.2, List.prefix_append _ _⟩
    · simp only [hm, if_false]
      exact ⟨h, List.prefix_rfl⟩
  · simp only [hf, if_false]
    exact ⟨h, List.prefix_rfl⟩

/-- Witness for C9: adding an already-present path and scanning a folder
containing it leave the two-element list duplicate-free. -/
theorem input_list_nodup_invariant_witness :
    ((add_file ⟨[⟨true, ["a", "f.hkx"]⟩, ⟨true, ["b", "g.hkx"]⟩], none, none, "",
        OutputFormat.Xml, none, InputFileExtension.All, ConverterTool.HkxCmd,
        ConversionMode.Regular⟩ (fun _ => true) ⟨true, ["a", "f.hkx"]⟩).1.input_paths.Nodup) ∧
    ((add_files_recursive ⟨[⟨true, ["a", "f.hkx"]⟩, ⟨true, ["b", "g.hkx"]⟩], none, none, "",
        OutputFormat.Xml, none, InputFileExtension.All, ConverterTool.HkxCmd,
        ConversionMode.Regular⟩ (fun _ => true)
      [⟨true, ["a", "f.hkx"]⟩, ⟨true, ["c", "h.xml"]⟩]).input_paths.Nodup) := by
  have h := input_list_nodup_invariant
    ⟨[⟨true, ["a", "f.hkx"]⟩, ⟨true, ["b", "g.hkx"]⟩], none, none, "",
      OutputFormat.Xml, none, InputFileExtension.All, ConverterTool.HkxCmd,
      ConversionMode.Regular⟩ (fun _ => true) ⟨true, ["a", "f.hkx"]⟩
    [⟨true, ["a", "f.hkx"]⟩, ⟨true, ["c", "h.xml"]⟩]
    [⟨true, ["a", "f.hkx"]⟩, ⟨true, ["c", "h.xml"]⟩] (by decide)
  exact ⟨h.1.1, h.2.2.1⟩

/-- `"C:/a/x/f1.hkx"` from the relative-directory example of the spec. -/
def exIn1 : RPath := ⟨true, ["C:", "a", "x", "f1.hkx"]⟩

/-- `"C:/a/y/f2.hkx"` from the relative-directory example of the spec. -/
def exIn2 : RPath := ⟨true, ["C:", "a", "y", "f2.hkx"]⟩

/-- `"C:/out"` from the relative-directory example of the spec. -/
def exOutRoot : RPath := ⟨true, ["C:", "out"]⟩

/-- App state for the example batch: both inputs, output root `C:/out`,
mode `Regular`, format `Xml`, no suffix, no custom extension. -/
def exApp : AppState :=
  ⟨[exIn1, exIn2], some exOutRoot, none, "", OutputFormat.Xml, none,
    InputFileExtension.All, ConverterTool.HkxCmd, ConversionMode.Regular⟩

/-- Batch configuration for the example batch. -/
def exCfg : BatchConfig := ⟨exOutRoot, "", OutputFormat.Xml, none, ConversionMode.Regular⟩

/-- C1: the derivation actually used by the batch (`get_output_path_static`,
called from `run_conversion_async`) places BOTH outputs of the two-file
example batch flat under the output root — `C:/out/f1.xml` and
`C:/out/f2.xml`, whose parent is `C:/out` and not `C:/out/x` — contradicting
the claimed relative-directory preservation; the unused instance method
`HkxToolsApp::get_output_path` produces exactly the claimed nested outputs
`C:/out/x/f1.xml` and `C:/out/y/f2.xml`, exposing the slip. -/
theorem static_output_path_is_flat_for_multi_file_batch :
    get_output_path_static exIn1 exOutRoot "" OutputFormat.Xml none ConversionMode.Regular =
      some ⟨true, ["C:", "out", "f1.xml"]⟩ ∧
    get_output_path_static exIn2 exOutRoot "" OutputFormat.Xml none ConversionMode.Regular =
      some ⟨true, ["C:", "out", "f2.xml"]⟩ ∧
    RPath.parent ⟨true, ["C:", "out", "f1.xml"]⟩ = some exOutRoot ∧
    exOutRoot ≠ exOutRoot.join ⟨false, ["x"]⟩ ∧
    HkxToolsApp.get_output_path exApp exIn1 = some ⟨true, ["C:", "out", "x", "f1.xml"]⟩ ∧
    HkxToolsApp.get_output_path exApp exIn2 = some ⟨true, ["C:", "out", "y", "f2.xml"]⟩ ∧
    (RPath.join exOutRoot ⟨false, ["x"]⟩).join ⟨false, ["f1.xml"]⟩ =
      RPath.mk true ["C:", "out", "x", "f1.xml"] := by
  refine ⟨by decide, by decide, by decide, by decide, by decide, by decide, by decide⟩

/-- Per-task outcomes for the C2 failing batch: the first resolved task
failed, the second succeeded. -/
def exOutcomesFirstFails : Nat → TaskOutcome := fun i =>
  if i = 0 then
    TaskOutcome.innerError "hkxcmd failed with exit code Some(1): stdout:  stderr: boom"
  else TaskOutcome.success

/-- C2: in a two-file batch with no cancellation in which the first
result is a failure, `run_conversion_async` spawns and joins both tasks but
the fan-in loop returns `Err` at the first failed result: no terminal
batch-completed event is ever emitted, contradicting the claim that
`BatchCompleted(successes, total)` always fires after all tasks resolve. -/
theorem fan_in_aborts_on_first_task_failure :
    (run_conversion_async [exIn1, exIn2] exCfg none exOutcomesFirstFails).spawned = [0, 1] ∧
    (run_conversion_async [exIn1, exIn2] exCfg none exOutcomesFirstFails).orchestratorEvents
      = [] ∧
    (run_conversion_async [exIn1, exIn2] exCfg none exOutcomesFirstFails).result =
      Except.error "hkxcmd failed with exit code Some(1): stdout:  stderr: boom" ∧
    (run_conversion_async [exIn1, exIn2] exCfg none (fun _ => TaskOutcome.success)
        ).orchestratorEvents = [completedProgress 2 2] := by
  refine ⟨by decide, by decide, by decide, by decide⟩

/-- A path without a file stem (the filesystem root). -/
def exNoStem : RPath := ⟨true, []⟩

/-- C4 counterexample: with a stemless path as the second of three inputs,
the derivation failure does NOT merely fail that file: the spawning loop of
`run_conversion_async` returns `Err("Failed to determine output path")`
immediately — only the first file was spawned, the third is never run, no
per-file failure event is sent for the stemless file and no terminal event is
emitted. -/
theorem derivation_failure_aborts_batch :
    RPath.fileStem exNoStem = none ∧
    (run_conversion_async [exIn1, exNoStem, exIn2] exCfg none
      (fun _ => TaskOutcome.success)).spawned = [0] ∧
    (run_conversion_async [exIn1, exNoStem, exIn2] exCfg none
      (fun _ => TaskOutcome.success)).orchestratorEvents = [] ∧
    (run_conversion_async [exIn1, exNoStem, exIn2] exCfg none
      (fun _ => TaskOutcome.success)).result =
      Except.error "Failed to determine output path" := by
  refine ⟨by decide, by decide, by decide, by decide⟩

/-- Concrete tool paths (the temp-dir locations the executables are
extracted to). -/
def exTp : ToolPaths :=
  ⟨⟨true, ["tmp", "hkxcmd.exe"]⟩, ⟨true, ["tmp", "hkxc.exe"]⟩,
    ⟨true, ["tmp", "hkxconv.exe"]⟩, ⟨true, ["tmp", "_SSEtoLE.hko"]⟩,
    ⟨true, ["tmp", "HavokBehaviorPostProcess.exe"]⟩⟩

/-- A concrete working directory. -/
def exCwd : RPath := ⟨true, ["work"]⟩

/-- C3 counterexample: `SkyrimLE` is outside the declared hkxconv format
capability set, yet `build_invocation` for `(HkxConv, Regular, SkyrimLE)`
does not fail — it produces a `ProcessSpec`, and the very same argument list
as for the supported `SkyrimSE` (both formats map to `-v hkx`): an
unsupported (tool, format) pair is silently mapped rather than rejected. -/
theorem hkxconv_le_format_not_rejected :
    OutputFormat.SkyrimLE ∉ supportedFormats ConverterTool.HkxConv ∧
    build_invocation exTp exCwd ConverterTool.HkxConv ConversionMode.Regular
        OutputFormat.SkyrimLE exIn1 ⟨true, ["C:", "out", "f1.hkx"]⟩ none =
      Except.ok (BuiltCommand.direct (Arg.path exTp.hkxconv_path)
        [Arg.str "convert", Arg.str "convert", Arg.path exIn1,
          Arg.path ⟨true, ["C:", "out", "f1.hkx"]⟩, Arg.str "-v", Arg.str "hkx"]) ∧
    build_invocation exTp exCwd ConverterTool.HkxConv ConversionMode.Regular
        OutputFormat.SkyrimLE exIn1 ⟨true, ["C:", "out", "f1.hkx"]⟩ none =
      build_invocation exTp exCwd ConverterTool.HkxConv ConversionMode.Regular
        OutputFormat.SkyrimSE exIn1 ⟨true, ["C:", "out", "f1.hkx"]⟩ none := by
  refine ⟨by decide, by decide, by decide⟩

/-- C3 (amended): for every `(tool, mode)` pair outside the declared mode
capability matrix, `build_invocation` fails with a capability error — in the
source these `return Err(...)` branches run before any process is spawned.
(The format dimension is NOT checked by the builder; see the hkxconv
counterexample.) -/
theorem unsupported_mode_rejected (tp : ToolPaths) (cwd : RPath)
    (converter_tool : ConverterTool) (conversion_mode : ConversionMode)
    (output_format : OutputFormat) (input output : RPath) (skeleton_file : Option RPath)
    (h : modeEnabled conversion_mode converter_tool = false) :
    ∃ msg, build_invocation tp cwd converter_tool conversion_mode output_format
      input output skeleton_file = Except.error msg := by
  cases conversion_mode <;> cases converter_tool <;>
    first
      | exact absurd h (by decide)
      | exact ⟨_, rfl⟩

/-- Witness for C3 (amended): `(hkxc, KfToHkx)` is outside the mode matrix
and the builder rejects it. -/
theorem unsupported_mode_rejected_witness :
    modeEnabled ConversionMode.KfToHkx ConverterTool.HkxC = false ∧
    ∃ msg, build_invocation exTp exCwd ConverterTool.HkxC ConversionMode.KfToHkx
      OutputFormat.Xml exIn1 ⟨true, ["C:", "out", "f1.hkx"]⟩ none = Except.error msg :=
  ⟨by decide, unsupported_mode_rejected exTp exCwd ConverterTool.HkxC
    ConversionMode.KfToHkx OutputFormat.Xml exIn1 ⟨true, ["C:", "out", "f1.hkx"]⟩ none
    (by decide)⟩

/-- One unfolding step of the spawning loop when the cancellation check
misses and the output path derives. -/
theorem spawnLoop_step (cfg : BatchConfig) (delivery : Option Nat) (total : Nat)
    (q : RPath) (rest : List RPath) (i : Nat) (sp : List Nat)
    (dirs : List (Nat × RPath)) (evs : List ConversionProgress) (out : RPath)
    (h1 : tryRecvOk delivery i = false) (hout : deriveOutput cfg q = some out) :
    spawnLoop cfg delivery total (q :: rest) i sp dirs evs =
      spawnLoop cfg delivery total rest (i + 1) (sp ++ [i])
        (match out.parent with
          | some parent => dirs ++ [(i, parent)]
          | none => dirs)
        evs := by
  simp only [spawnLoop, h1, hout]
  rfl

/-- With no cancellation, the spawning loop aborts the whole batch at the
first input whose output path cannot be derived: every file before it is
spawned, nothing after it is, no event is sent by the loop, and the exit is
the `context` error of the `?`. -/
theorem spawnLoop_derivation_abort (cfg : BatchConfig) (total : Nat) :
    ∀ (pre : List RPath) (p : RPath) (post : List RPath) (i : Nat) (sp : List Nat)
      (dirs : List (Nat × RPath)) (evs : List ConversionProgress),
      (∀ q ∈ pre, (deriveOutput cfg q).isSome) → deriveOutput cfg p = none →
      ∃ ds, spawnLoop cfg none total (pre ++ p :: post) i sp dirs evs =
        (sp ++ List.range' i pre.length, dirs ++ ds, evs,
          LoopExit.derivationFailed "Failed to determine output path") := by
  intro pre
  induction pre with
  | nil =>
    intro p post i sp dirs evs _ hp
    refine ⟨[], ?_⟩
    simp [spawnLoop, tryRecvOk, hp]
  | cons q pre' ih =>
    intro p post i sp dirs evs hpre hp
    have hq : (deriveOutput cfg q).isSome := hpre q (List.mem_cons_self q pre')
    obtain ⟨out, hout⟩ := Option.isSome_iff_exists.mp hq
    have hpre' : ∀ r ∈ pre', (deriveOutput cfg r).isSome :=
      fun r hr => hpre r (List.mem_cons_of_mem q hr)
    rw [List.cons_append, spawnLoop_step cfg none total q (pre' ++ p :: post) i sp dirs evs
      out rfl hout]
    cases hpar : out.parent with
    | some parent =>
      obtain ⟨ds', hds'⟩ := ih p post (i + 1) (sp ++ [i]) (dirs ++ [(i, parent)]) evs hpre' hp
      refine ⟨(i, parent) :: ds', ?_⟩
      rw [hds']
      simp [List.range'_succ]
    | none =>
      obtain ⟨ds', hds'⟩ := ih p post (i + 1) (sp ++ [i]) dirs evs hpre' hp
      refine ⟨ds', ?_⟩
      rw [hds']
      simp [List.range'_succ]

/-- C4 (amended): when an input path in the batch has no derivable output
path (no file-stem), `run_conversion_async` — with no cancellation — aborts
the whole batch at that file: the function returns
`Err("Failed to determine output path")`, exactly the files before the
failing one are spawned (the failing file and all later files never run),
and the orchestrator emits no event at all, in particular no per-file
failure event for the failing file and no terminal event. -/
theorem derivation_failure_aborts_batch_general (pre : List RPath) (p : RPath)
    (post : List RPath) (cfg : BatchConfig) (outcomes : Nat → TaskOutcome)
    (hpre : ∀ q ∈ pre, (deriveOutput cfg q).isSome)
    (hp : deriveOutput cfg p = none) :
    (run_conversion_async (pre ++ p :: post) cfg none outcomes).result =
      Except.error "Failed to determine output path" ∧
    (run_conversion_async (pre ++ p :: post) cfg none outcomes).spawned =
      List.range pre.length ∧
    (run_conversion_async (pre ++ p :: post) cfg none outcomes).orchestratorEvents = [] := by
  obtain ⟨ds, hds⟩ := spawnLoop_derivation_abort cfg (pre ++ p :: post).length pre p post
    0 [] [] [] hpre hp
  unfold run_conversion_async
  simp only [hds]
  simp [List.range_eq_range']

/-- Witness for C4 (amended): one good file before a stemless one, one
after. -/
theorem derivation_failure_aborts_batch_general_witness :
    (run_conversion_async [exIn1, exNoStem, exIn2] exCfg none
      (fun _ => TaskOutcome.success)).spawned = List.range 1 ∧
    (run_conversion_async [exIn1, exNoStem, exIn2] exCfg none
      (fun _ => TaskOutcome.success)).result =
      Except.error "Failed to determine output path" := by
  have h := derivation_failure_aborts_batch_general [exIn1] exNoStem [exIn2] exCfg
    (fun _ => TaskOutcome.success) (by decide) (by decide)
  exact ⟨h.2.1, h.1⟩

/-- With the cancellation signal delivered at `try_recv` call `k`, the
spawning loop never spawns a task or creates a directory at an index `≥ k`:
the check precedes all per-file work. -/
theorem spawnLoop_bound (cfg : BatchConfig) (k total : Nat) :
    ∀ (rest : List RPath) (i : Nat) (sp : List Nat) (dirs : List (Nat × RPath))
      (evs : List ConversionProgress),
      (∀ j ∈ sp, j < k) → (∀ pr ∈ dirs, pr.1 < k) →
      (∀ j ∈ (spawnLoop cfg (some k) total rest i sp dirs evs).1, j < k) ∧
      (∀ pr ∈ (spawnLoop cfg (some k) total rest i sp dirs evs).2.1, pr.1 < k) := by
  intro rest
  induction rest with
  | nil =>
    intro i sp dirs evs hsp hdirs
    exact ⟨hsp, hdirs⟩
  | cons q rest' ih =>
    intro i sp dirs evs hsp hdirs
    by_cases hc : tryRecvOk (some k) i
    · simp only [spawnLoop, hc, if_true]
      exact ⟨hsp, hdirs⟩
    · have hik : i < k := by
        simp only [tryRecvOk, decide_eq_true_eq] at hc
        omega
      have hc' : tryRecvOk (some k) i = false := by
        simp only [tryRecvOk, decide_eq_false_iff_not]
        omega
      cases hout : deriveOutput cfg q with
      | none =>
        simp only [spawnLoop, hc', if_false, hout, Bool.false_eq_true]
        exact ⟨hsp, hdirs⟩
      | some out =>
        rw [spawnLoop_step cfg (some k) total q rest' i sp dirs evs out hc' hout]
        have hsp' : ∀ j ∈ sp ++ [i], j < k := by
          intro j hj
          rcases List.mem_append.mp hj with h | h
          · exact hsp j h
          · rw [List.mem_singleton] at h
            exact h ▸ hik
        cases hpar : out.parent with
        | some parent =>
          refine ih (i + 1) (sp ++ [i]) (dirs ++ [(i, parent)]) evs hsp' ?_
          intro pr hpr
          rcases List.mem_append.mp hpr with h | h
          · exact hdirs pr h
          · rw [List.mem_singleton] at h
            rw [h]
            exact hik
        | none => exact ih (i + 1) (sp ++ [i]) dirs evs hsp' hdirs

/-- With the cancellation signal delivered at `try_recv` call `k < `number of
remaining files (counted from `i`), and all files before the hit deriving,
the spawning loop runs files `i, …, k-1`, then observes the signal at `k`,
sends exactly one cancellation event and stops. -/
theorem spawnLoop_cancel_hit (cfg : BatchConfig) (k total : Nat) :
    ∀ (rest : List RPath) (i : Nat) (sp : List Nat) (dirs : List (Nat × RPath))
      (evs : List ConversionProgress),
      i ≤ k → k - i < rest.length →
      (∀ q ∈ rest.take (k - i), (deriveOutput cfg q).isSome) →
      ∃ ds, spawnLoop cfg (some k) total rest i sp dirs evs =
        (sp ++ List.range' i (k - i), dirs ++ ds,
          evs ++ [cancelProgress k total], LoopExit.cancelled) := by
  intro rest
  induction rest with
  | nil =>
    intro i sp dirs evs _ hlen _
    exact absurd hlen (by simp)
  | cons q rest' ih =>
    intro i sp dirs evs hik hlen htake
    by_cases hki : k ≤ i
    · have hik' : i = k := Nat.le_antisymm hik hki
      have hc : tryRecvOk (some k) i = true := by
        simp only [tryRecvOk, decide_eq_true_eq]
        omega
      refine ⟨[], ?_⟩
      simp only [spawnLoop, hc, if_true]
      rw [hik']
      simp [Nat.sub_eq_zero_of_le hki, hik']
    · have hik2 : i < k := Nat.lt_of_le_of_ne hik (fun h => hki (Nat.le_of_eq h.symm))
      have hc' : tryRecvOk (some k) i = false := by
        simp only [tryRecvOk, decide_eq_false_iff_not]
        omega
      have hpos : 0 < k - i := by omega
      have htq : q ∈ (q :: rest').take (k - i) := by
        cases hkie : k - i with
        | zero => omega
        | succ m => simp [hkie]
      obtain ⟨out, hout⟩ := Option.isSome_iff_exists.mp (htake q htq)
      rw [spawnLoop_step cfg (some k) total q rest' i sp dirs evs out hc' hout]
      have hlen' : k - (i + 1) < rest'.length := by
        simp only [List.length_cons] at hlen
        omega
      have htake' : ∀ r ∈ rest'.take (k - (i + 1)), (deriveOutput cfg r).isSome := by
        intro r hr
        refine htake r ?_
        cases hkie : k - i with
        | zero => omega
        | succ m =>
          have : k - (i + 1) = m := by omega
          rw [this] at hr
          simp [hkie]
          exact Or.inr hr
      have harr : sp ++ [i] ++ List.range' (i + 1) (k - (i + 1)) =
          sp ++ List.range' i (k - i) := by
        have : k - i = (k - (i + 1)) + 1 := by omega
        rw [this, List.range'_succ]
        simp
      cases hpar : out.parent with
      | some parent =>
        obtain ⟨ds', hds'⟩ := ih (i + 1) (sp ++ [i]) (dirs ++ [(i, parent)]) evs
          (by omega) hlen' htake'
        refine ⟨(i, parent) :: ds', ?_⟩
        rw [hds', harr]
        simp
      | none =>
        obtain ⟨ds', hds'⟩ := ih (i + 1) (sp ++ [i]) dirs evs (by omega) hlen' htake'
        refine ⟨ds', ?_⟩
        rw [hds', harr]

/-- C6: with the one-shot cancellation signal delivered at `try_recv` call
`k`, `run_conversion_async` never spawns a task and never creates a
directory for file index `≥ k` — the per-task cancellation check happens
before its path derivation, directory creation and spawn, and stops every
not-yet-started task.  Moreover, when the hit occurs inside the spawning
loop (`k` less than the batch size, files before `k` deriving), the
orchestrator emits exactly one cancellation progress event and returns `Ok`:
in particular for `k = 0` (cancellation before any task starts) nothing is
spawned and no directory is created at all. -/
theorem cancellation_checked_before_each_task (input_paths : List RPath)
    (cfg : BatchConfig) (outcomes : Nat → TaskOutcome) (k : Nat) :
    (∀ j ∈ (run_conversion_async input_paths cfg (some k) outcomes).spawned, j < k) ∧
    (∀ pr ∈ (run_conversion_async input_paths cfg (some k) outcomes).dirsCreated,
      pr.1 < k) ∧
    (k < input_paths.length →
      (∀ q ∈ input_paths.take k, (deriveOutput cfg q).isSome) →
      (run_conversion_async input_paths cfg (some k) outcomes).spawned =
        List.range k ∧
      (run_conversion_async input_paths cfg (some k) outcomes).orchestratorEvents =
        [cancelProgress k input_paths.length] ∧
      (run_conversion_async input_paths cfg (some k) outcomes).result = Except.ok ()) := by
  have hbound := spawnLoop_bound cfg k input_paths.length input_paths 0 [] [] []
    (by simp) (by simp)
  have hspawned : (run_conversion_async input_paths cfg (some k) outcomes).spawned =
      (spawnLoop cfg (some k) input_paths.length input_paths 0 [] [] []).1 := by
    unfold run_conversion_async
    rcases hsl : spawnLoop cfg (some k) input_paths.length input_paths 0 [] [] [] with
      ⟨sp, dirs, evs, ex⟩
    simp only [hsl]
    cases ex <;> rfl
  have hdirs : (run_conversion_async input_paths cfg (some k) outcomes).dirsCreated =
      (spawnLoop cfg (some k) input_paths.length input_paths 0 [] [] []).2.1 := by
    unfold run_conversion_async
    rcases hsl : spawnLoop cfg (some k) input_paths.length input_paths 0 [] [] [] with
      ⟨sp, dirs, evs, ex⟩
    simp only [hsl]
    cases ex <;> rfl
  refine ⟨?_, ?_, ?_⟩
  · intro j hj
    rw [hspawned] at hj
    exact hbound.1 j hj
  · intro pr hpr
    rw [hdirs] at hpr
    exact hbound.2 pr hpr
  · intro hk htake
    obtain ⟨ds, hds⟩ := spawnLoop_cancel_hit cfg k input_paths.length input_paths 0
      [] [] [] (Nat.zero_le k) (by simpa using hk) (by simpa using htake)
    unfold run_conversion_async
    simp only [hds]
    simp [List.range_eq_range']

/-- Witness for C6: cancellation delivered before anything starts on the
two-file example batch — no task spawned, no directory created, one
cancellation event, `Ok` result. -/
theorem cancellation_checked_before_each_task_witness :
    (run_conversion_async [exIn1, exIn2] exCfg (some 0)
      (fun _ => TaskOutcome.success)).spawned = List.range 0 ∧
    (run_conversion_async [exIn1, exIn2] exCfg (some 0)
      (fun _ => TaskOutcome.success)).orchestratorEvents = [cancelProgress 0 2] ∧
    (run_conversion_async [exIn1, exIn2] exCfg (some 0)
      (fun _ => TaskOutcome.success)).result = Except.ok () := by
  have h := (cancellation_checked_before_each_task [exIn1, exIn2] exCfg
    (fun _ => TaskOutcome.success) 0).2.2 (by decide) (by simp)
  exact ⟨h.1, h.2.1, h.2.2⟩

/-- `n`-fold application of `Path::parent`. -/
def iterateParent : Nat → RPath → Option RPath
  | 0, p => some p
  | n + 1, p => (RPath.parent p).bind (iterateParent n)

/-- `a` is an ancestor of `p`, or `p` itself: some number of `parent` steps
from `p` reaches `a`. -/
def ancestorOrSelf (a p : RPath) : Prop := ∃ n, iterateParent n p = some a

/-- `starts_with` is reflexive. -/
theorem startsWithP_refl (p : RPath) : p.startsWithP p :=
  Or.inr ⟨rfl, List.prefix_rfl⟩

/-- `starts_with` is transitive. -/
theorem startsWithP_trans {p q r : RPath} (h1 : p.startsWithP q) (h2 : q.startsWithP r) :
    p.startsWithP r := by
  rcases h2 with h2 | ⟨hab, hpre⟩
  · exact Or.inl h2
  · rcases h1 with ⟨h1a, h1c⟩ | ⟨h1a, h1p⟩
    · rw [h1c] at hpre
      rw [List.prefix_nil] at hpre
      exact Or.inl ⟨hab ▸ h1a, hpre⟩
    · exact Or.inr ⟨h1a.trans hab, hpre.trans h1p⟩

/-- A path starts with its parent. -/
theorem parent_startsWithP {p q : RPath} (h : p.parent = some q) : p.startsWithP q := by
  unfold RPath.parent at h
  by_cases he : p.comps.isEmpty
  · rw [if_pos he] at h
    cases h
  · rw [if_neg he] at h
    cases h
    exact Or.inr ⟨rfl, List.dropLast_prefix p.comps⟩

/-- A path starts with each of its ancestors. -/
theorem iterateParent_startsWithP :
    ∀ (n : Nat) (p a : RPath), iterateParent n p = some a → p.startsWithP a := by
  intro n
  induction n with
  | zero =>
    intro p a h
    cases h
    exact startsWithP_refl p
  | succ m ih =>
    intro p a h
    unfold iterateParent at h
    cases hpar : p.parent with
    | none => rw [hpar] at h; cases h
    | some q =>
      rw [hpar] at h
      exact startsWithP_trans (parent_startsWithP hpar) (ih q a h)

/-- Splitting an ancestor walk: `k + m` steps are `m` steps followed by `k`
steps. -/
theorem iterateParent_add (k : Nat) :
    ∀ (m : Nat) (p : RPath),
      iterateParent (k + m) p = (iterateParent m p).bind (iterateParent k) := by
  intro m
  induction m with
  | zero =>
    intro p
    rfl
  | succ m ih =>
    intro p
    have hL : iterateParent (k + (m + 1)) p =
        (RPath.parent p).bind (iterateParent (k + m)) := rfl
    have hR : iterateParent (m + 1) p = (RPath.parent p).bind (iterateParent m) := rfl
    rw [hL, hR]
    cases hpar : p.parent with
    | none => rfl
    | some q =>
      simp only [Option.some_bind]
      exact ih q

/-- Two ancestors of the same path are comparable: the one reached in more
steps is an ancestor of the other. -/
theorem iterateParent_sub {n m : Nat} {p a b : RPath} (hn : iterateParent n p = some a)
    (hm : iterateParent m p = some b) (hle : m ≤ n) :
    iterateParent (n - m) b = some a := by
  have hsplit : iterateParent ((n - m) + m) p =
      (iterateParent m p).bind (iterateParent (n - m)) := iterateParent_add (n - m) m p
  rw [Nat.sub_add_cancel hle] at hsplit
  rw [hn, hm] at hsplit
  exact hsplit.symm

/-- `ancestorOrSelf` is transitive. -/
theorem ancestorOrSelf_trans {a b c : RPath} (h1 : ancestorOrSelf a b)
    (h2 : ancestorOrSelf b c) : ancestorOrSelf a c := by
  obtain ⟨n, hn⟩ := h1
  obtain ⟨m, hm⟩ := h2
  refine ⟨n + m, ?_⟩
  rw [iterateParent_add n m c, hm, Option.some_bind]
  exact hn

/-- Stepping the ascent: the parent of the path with reversed components
`x :: rest` is the path with reversed components `rest`. -/
theorem parent_reverse_cons (r : Bool) (x : String) (rest : List String) :
    RPath.parent ⟨r, (x :: rest).reverse⟩ = some ⟨r, rest.reverse⟩ := by
  unfold RPath.parent
  rw [List.reverse_cons]
  rw [if_neg (by simp)]
  simp

/-- Soundness of the ascent loop: a returned value is a prefix of `dir` and
an ancestor-or-self of the starting path. -/
theorem ascendAux_sound :
    ∀ (rev : List String) (dir : RPath) (r : Bool) (c : RPath),
      ascendAux dir r rev = some c →
      dir.startsWithP c ∧ ∃ n, iterateParent n ⟨r, rev.reverse⟩ = some c := by
  intro rev
  induction rev with
  | nil =>
    intro dir r c h
    unfold ascendAux at h
    by_cases hs : dir.startsWithP ⟨r, []⟩
    · rw [if_pos hs] at h
      cases h
      exact ⟨hs, 0, rfl⟩
    · rw [if_neg hs] at h
      cases h
  | cons x rest ih =>
    intro dir r c h
    unfold ascendAux at h
    by_cases hs : dir.startsWithP ⟨r, (x :: rest).reverse⟩
    · rw [if_pos hs] at h
      cases h
      exact ⟨hs, 0, rfl⟩
    · rw [if_neg hs] at h
      obtain ⟨h1, n, hn⟩ := ih dir r c h
      refine ⟨h1, n + 1, ?_⟩
      show (RPath.parent ⟨r, (x :: rest).reverse⟩).bind (iterateParent n) = some c
      rw [parent_reverse_cons, Option.some_bind]
      exact hn

/-- Completeness of the ascent loop: if some ancestor-or-self of the starting
path is a prefix of `dir`, the loop finds one. -/
theorem ascendAux_complete :
    ∀ (rev : List String) (dir : RPath) (r : Bool),
      (∃ a, (∃ n, iterateParent n ⟨r, rev.reverse⟩ = some a) ∧ dir.startsWithP a) →
      (ascendAux dir r rev).isSome := by
  intro rev
  induction rev with
  | nil =>
    intro dir r h
    obtain ⟨a, ⟨n, hn⟩, hs⟩ := h
    cases n with
    | zero =>
      cases hn
      simp only [List.reverse_nil] at hs
      unfold ascendAux
      rw [if_pos hs]
      rfl
    | succ m =>
      exfalso
      have hpar : RPath.parent ⟨r, ([] : List String).reverse⟩ = none := by
        unfold RPath.parent
        rw [if_pos (by simp)]
      unfold iterateParent at hn
      rw [hpar] at hn
      cases hn
  | cons x rest ih =>
    intro dir r h
    by_cases hs : dir.startsWithP ⟨r, (x :: rest).reverse⟩
    · unfold ascendAux
      rw [if_pos hs]
      rfl
    · obtain ⟨a, ⟨n, hn⟩, hsa⟩ := h
      cases n with
      | zero =>
        cases hn
        exact absurd hsa hs
      | succ m =>
        unfold iterateParent at hn
        rw [parent_reverse_cons, Option.some_bind] at hn
        unfold ascendAux
        rw [if_neg hs]
        exact ih dir r ⟨a, ⟨m, hn⟩, hsa⟩

/-- Soundness of one inner-loop pass. -/
theorem ascendUntil_sound {c dir c' : RPath} (h : ascendUntil c dir = some c') :
    dir.startsWithP c' ∧ ancestorOrSelf c' c := by
  obtain ⟨h1, n, hn⟩ := ascendAux_sound c.comps.reverse dir c.absolute c' h
  rw [List.reverse_reverse] at hn
  exact ⟨h1, n, hn⟩

/-- Completeness of one inner-loop pass. -/
theorem ascendUntil_complete {c dir : RPath}
    (h : ∃ a, ancestorOrSelf a c ∧ dir.startsWithP a) : (ascendUntil c dir).isSome := by
  refine ascendAux_complete c.comps.reverse dir c.absolute ?_
  simp only [List.reverse_reverse]
  obtain ⟨a, ⟨n, hn⟩, hs⟩ := h
  exact ⟨a, ⟨n, hn⟩, hs⟩

/-- Folding over a `none` accumulator stays `none`. -/
theorem fold_ascend_none (rest : List RPath) :
    rest.foldl (fun acc dir => acc.bind fun common => ascendUntil common dir) none =
      none := by
  induction rest with
  | nil => rfl
  | cons dir rest' ih => exact ih

/-- Soundness of the common-ancestor fold: a returned directory is an
ancestor-or-self of the starting directory and a prefix of every processed
directory. -/
theorem fold_ascend_sound :
    ∀ (rest : List RPath) (c0 d : RPath),
      rest.foldl (fun acc dir => acc.bind fun common => ascendUntil common dir)
        (some c0) = some d →
      ancestorOrSelf d c0 ∧ ∀ dir ∈ rest, dir.startsWithP d := by
  intro rest
  induction rest with
  | nil =>
    intro c0 d h
    cases h
    exact ⟨⟨0, rfl⟩, by simp⟩
  | cons dir rest' ih =>
    intro c0 d h
    rw [List.foldl_cons] at h
    cases hasc : ascendUntil c0 dir with
    | none =>
      rw [Option.some_bind, hasc] at h
      rw [fold_ascend_none] at h
      cases h
    | some c1 =>
      rw [Option.some_bind, hasc] at h
      obtain ⟨hanc, hall⟩ := ih c1 d h
      obtain ⟨hdir, hanc1⟩ := ascendUntil_sound hasc
      obtain ⟨n, hn⟩ := hanc
      have hc1d : c1.startsWithP d := iterateParent_startsWithP n c1 d hn
      refine ⟨ancestorOrSelf_trans ⟨n, hn⟩ hanc1, ?_⟩
      intro dir' hdir'
      rcases List.mem_cons.mp hdir' with h' | h'
      · rw [h']
        exact startsWithP_trans hdir hc1d
      · exact hall dir' h'

/-- Completeness of the common-ancestor fold: if every remaining directory
has, among the ancestors-or-self of `first`, a prefix, the fold starting from
any ancestor-or-self of `first` succeeds. -/
theorem fold_ascend_complete :
    ∀ (rest : List RPath) (c0 first : RPath), ancestorOrSelf c0 first →
      (∀ dir ∈ rest, ∃ a, ancestorOrSelf a first ∧ dir.startsWithP a) →
      (rest.foldl (fun acc dir => acc.bind fun common => ascendUntil common dir)
        (some c0)).isSome := by
  intro rest
  induction rest with
  | nil =>
    intro c0 _ _ _
    rfl
  | cons dir rest' ih =>
    intro c0 first hc0 hall
    obtain ⟨a, ⟨n, hn⟩, hsa⟩ := hall dir (List.mem_cons_self dir rest')
    obtain ⟨m, hm⟩ := hc0
    have hsome : (ascendUntil c0 dir).isSome := by
      rcases Nat.le_total m n with hle | hle
      · exact ascendUntil_complete ⟨a, ⟨n - m, iterateParent_sub hn hm hle⟩, hsa⟩
      · have hc0a : ancestorOrSelf c0 a := ⟨m - n, iterateParent_sub hm hn hle⟩
        obtain ⟨j, hj⟩ := hc0a
        have : a.startsWithP c0 := iterateParent_startsWithP j a c0 hj
        exact ascendUntil_complete ⟨c0, ⟨0, rfl⟩, startsWithP_trans hsa this⟩
    obtain ⟨c1, hc1⟩ := Option.isSome_iff_exists.mp hsome
    rw [List.foldl_cons, Option.some_bind, hc1]
    obtain ⟨_, hanc1⟩ := ascendUntil_sound hc1
    exact ih c1 first (ancestorOrSelf_trans hanc1 ⟨m, hm⟩) fun dir' h' =>
      hall dir' (List.mem_cons_of_mem dir h')

/-- C10: whenever `find_common_parent_dir` returns `some d`, the returned
directory `d` is an ancestor-or-equal prefix of the parent directory of every
input path in the list; and for every non-empty list in which every path has
a parent directory and the ascent from the first parent never runs out (each
parent directory has, among the ancestors-or-self of the first parent, a
prefix), it returns `some`. -/
theorem find_common_parent_dir_spec :
    (∀ (input_paths : List RPath) (d : RPath),
      find_common_parent_dir input_paths = some d →
      ∀ p ∈ input_paths, ∀ q, RPath.parent p = some q → q.startsWithP d) ∧
    (∀ input_paths : List RPath, input_paths ≠ [] →
      (∀ p ∈ input_paths, (RPath.parent p).isSome) →
      (∀ first, (input_paths.filterMap RPath.parent).head? = some first →
        ∀ dir ∈ input_paths.filterMap RPath.parent,
          ∃ a, ancestorOrSelf a first ∧ dir.startsWithP a) →
      (find_common_parent_dir input_paths).isSome) := by
  constructor
  · intro input_paths d h p hp q hq
    have hemp : input_paths.isEmpty = false := by
      cases input_paths with
      | nil => cases hp
      | cons a l => rfl
    unfold find_common_parent_dir at h
    rw [hemp] at h
    simp only [Bool.false_eq_true, if_false] at h
    have hqmem : q ∈ input_paths.filterMap RPath.parent :=
      List.mem_filterMap.mpr ⟨p, hp, hq⟩
    cases hfm : input_paths.filterMap RPath.parent with
    | nil =>
      rw [hfm] at hqmem
      cases hqmem
    | cons first rest =>
      rw [hfm] at h
      obtain ⟨hanc, hall⟩ := fold_ascend_sound rest first d h
      rw [hfm] at hqmem
      rcases List.mem_cons.mp hqmem with h' | h'
      · obtain ⟨n, hn⟩ := hanc
        rw [h']
        exact iterateParent_startsWithP n first d hn
      · exact hall q h'
  · intro input_paths hne hpar hasc
    obtain ⟨p0, hp0⟩ := List.exists_mem_of_ne_nil input_paths hne
    obtain ⟨q0, hq0⟩ := Option.isSome_iff_exists.mp (hpar p0 hp0)
    have hq0mem : q0 ∈ input_paths.filterMap RPath.parent :=
      List.mem_filterMap.mpr ⟨p0, hp0, hq0⟩
    have hemp : input_paths.isEmpty = false := by
      cases input_paths with
      | nil => exact absurd rfl hne
      | cons a l => rfl
    unfold find_common_parent_dir
    rw [hemp]
    simp only [Bool.false_eq_true, if_false]
    cases hfm : input_paths.filterMap RPath.parent with
    | nil =>
      rw [hfm] at hq0mem
      cases hq0mem
    | cons first rest =>
      refine fold_ascend_complete rest first first ⟨0, rfl⟩ ?_
      intro dir hdir
      refine hasc first ?_ dir ?_
      · rw [hfm]
        rfl
      · rw [hfm]
        exact List.mem_cons_of_mem first hdir

/-- Witness for C10 on the spec's example inputs: the computed common parent
`C:/a` is a prefix of both parents, and the ascent hypotheses are satisfied,
so the function returns `some`. -/
theorem find_common_parent_dir_spec_witness :
    (RPath.startsWithP ⟨true, ["C:", "a", "x"]⟩ ⟨true, ["C:", "a"]⟩ ∧
      RPath.startsWithP ⟨true, ["C:", "a", "y"]⟩ ⟨true, ["C:", "a"]⟩) ∧
    (find_common_parent_dir [exIn1, exIn2]).isSome := by
  have hfind : find_common_parent_dir [exIn1, exIn2] = some ⟨true, ["C:", "a"]⟩ := by
    decide
  have hfm : [exIn1, exIn2].filterMap RPath.parent =
      [⟨true, ["C:", "a", "x"]⟩, ⟨true, ["C:", "a", "y"]⟩] := by decide
  constructor
  · constructor
    · exact (find_common_parent_dir_spec).1 [exIn1, exIn2] ⟨true, ["C:", "a"]⟩ hfind
        exIn1 (by decide) ⟨true, ["C:", "a", "x"]⟩ (by decide)
    · exact (find_common_parent_dir_spec).1 [exIn1, exIn2] ⟨true, ["C:", "a"]⟩ hfind
        exIn2 (by decide) ⟨true, ["C:", "a", "y"]⟩ (by decide)
  · refine (find_common_parent_dir_spec).2 [exIn1, exIn2] (by decide) (by decide) ?_
    intro first hf dir hdir
    rw [hfm] at hf hdir
    have hfirst : first = ⟨true, ["C:", "a", "x"]⟩ := by
      cases hf
      rfl
    rcases List.mem_cons.mp hdir with h' | h'
    · exact ⟨first, ⟨0, rfl⟩, by rw [h', hfirst]; exact startsWithP_refl _⟩
    · rw [List.mem_singleton] at h'
      refine ⟨⟨true, ["C:", "a"]⟩, ⟨1, ?_⟩, ?_⟩
      · rw [hfirst]
        decide
      · rw [h']
        decide
